import Mathlib

/-!
Verification of the Anichain backend (anime_backend.py / anime_gui.py).

Strings are modelled as `List Char`; the Python string operations used by the
code (`str.replace`, `str.strip`, `str.split(sep)[0]`, `in` substring test,
`str.rstrip`, character filtering) are embedded below, following the Python
semantics on the character sets that actually occur.
-/

set_option maxHeartbeats 1000000

abbrev Chars := List Char

/-- Python whitespace test used by `str.strip()` (ASCII whitespace; the titles
handled by the program only contain plain spaces). -/
def pyIsSpace (c : Char) : Bool :=
  c == ' ' || c == '\t' || c == '\n' || c == '\r' || c == '\x0b' || c == '\x0c'

/-- `str.lstrip()` : drop leading whitespace. -/
def pyLstrip (s : Chars) : Chars := s.dropWhile pyIsSpace

/-- `str.rstrip()` : drop trailing whitespace. -/
def pyRstrip (s : Chars) : Chars := (s.reverse.dropWhile pyIsSpace).reverse

/-- `str.strip()` : drop whitespace on both ends. -/
def pyStrip (s : Chars) : Chars := pyRstrip (pyLstrip s)

/-- `sep in s` / occurrence of `pat` as a contiguous substring of `s`. -/
def Occurs (pat s : Chars) : Prop := ∃ a b, s = a ++ pat ++ b

/-- Executable substring test (Python `pat in s`). -/
def hasSubstr (pat : Chars) : Chars → Bool
  | [] => pat.isEmpty
  | c :: t => pat.isPrefixOf (c :: t) || hasSubstr pat t

/-- `s.split(sep)[0]` for non-empty `sep`: the prefix of `s` before the first
occurrence of `sep` (the whole of `s` when `sep` does not occur). -/
def splitFirst (sep : Chars) : Chars → Chars
  | [] => []
  | c :: t => if sep.isPrefixOf (c :: t) then [] else c :: splitFirst sep t

/-- `s.replace(old, new)` for non-empty `old`: replace every non-overlapping
occurrence, scanning left to right. Every step consumes at least one character
of the scanned string, so `s.length` steps always suffice; the fuel argument
only serves to make the recursion structural (the `0, s => s` case is
unreachable when starting with fuel `s.length`). -/
def replaceAllF (old new : Chars) : Nat → Chars → Chars
  | _, [] => []
  | 0, s => s
  | fuel + 1, c :: t =>
    if old.isPrefixOf (c :: t) then
      new ++ replaceAllF old new fuel (t.drop (old.length - 1))
    else
      c :: replaceAllF old new fuel t

def replaceAll (old new s : Chars) : Chars := replaceAllF old new s.length s

lemma isPrefixOf_iff_exists (p s : Chars) : p.isPrefixOf s = true ↔ ∃ r, s = p ++ r := by
  induction p generalizing s with
  | nil => simp [List.isPrefixOf]
  | cons a as ih =>
    cases s with
    | nil => simp [List.isPrefixOf]
    | cons b bs =>
      simp only [List.isPrefixOf, Bool.and_eq_true, beq_iff_eq, ih, List.cons_append,
        List.cons.injEq]
      constructor
      · rintro ⟨rfl, r, rfl⟩; exact ⟨r, rfl, rfl⟩
      · rintro ⟨r, rfl, rfl⟩; exact ⟨rfl, r, rfl⟩

lemma occurs_nil_iff (pat : Chars) : Occurs pat [] ↔ pat = [] := by
  constructor
  · rintro ⟨a, b, h⟩
    rcases List.append_eq_nil.mp h.symm with ⟨h1, h2⟩
    exact (List.append_eq_nil.mp h1).2
  · rintro rfl; exact ⟨[], [], rfl⟩

lemma occurs_cons_iff (pat : Chars) (c : Char) (t : Chars) :
    Occurs pat (c :: t) ↔ (∃ r, c :: t = pat ++ r) ∨ Occurs pat t := by
  constructor
  · rintro ⟨a, b, h⟩
    cases a with
    | nil => exact Or.inl ⟨b, by simpa using h⟩
    | cons x xs =>
      right
      simp only [List.cons_append, List.cons.injEq] at h
      exact ⟨xs, b, h.2⟩
  · rintro (⟨r, h⟩ | ⟨a, b, h⟩)
    · exact ⟨[], r, by simpa using h⟩
    · exact ⟨c :: a, b, by simp [h]⟩

lemma hasSubstr_iff (pat s : Chars) : hasSubstr pat s = true ↔ Occurs pat s := by
  induction s with
  | nil =>
    simp [hasSubstr, occurs_nil_iff, List.isEmpty_iff]
  | cons c t ih =>
    simp only [hasSubstr, Bool.or_eq_true, isPrefixOf_iff_exists, ih, occurs_cons_iff]

instance (pat s : Chars) : Decidable (Occurs pat s) :=
  decidable_of_iff (hasSubstr pat s = true) (hasSubstr_iff pat s)

/-- An occurrence in a middle segment is an occurrence in the whole string. -/
lemma occurs_extend {pat u : Chars} (x y : Chars) (h : Occurs pat u) :
    Occurs pat (x ++ u ++ y) := by
  rcases h with ⟨a, b, rfl⟩
  exact ⟨x ++ a, b ++ y, by simp⟩

lemma not_occurs_of_extend {pat u s : Chars} (x y : Chars) (hs : s = x ++ u ++ y)
    (h : ¬ Occurs pat s) : ¬ Occurs pat u := fun hu => h (hs ▸ occurs_extend x y hu)

/-- `splitFirst sep s` is a prefix of `s`. -/
lemma splitFirst_append (sep s : Chars) : ∃ r, s = splitFirst sep s ++ r := by
  induction s with
  | nil => exact ⟨[], rfl⟩
  | cons c t ih =>
    by_cases h : sep.isPrefixOf (c :: t) = true
    · exact ⟨c :: t, by simp [splitFirst, h]⟩
    · rcases ih with ⟨r, hr⟩
      exact ⟨r, by simp [splitFirst, h]; exact hr⟩

/-- The segment before the first occurrence of a non-empty `sep` contains no
occurrence of `sep`. -/
lemma not_occurs_splitFirst (sep s : Chars) (hsep : sep ≠ []) :
    ¬ Occurs sep (splitFirst sep s) := by
  induction s with
  | nil =>
    simp only [splitFirst, occurs_nil_iff]
    exact hsep
  | cons c t ih =>
    by_cases h : sep.isPrefixOf (c :: t) = true
    · simp only [splitFirst, h, if_true, occurs_nil_iff]
      exact hsep
    · simp only [splitFirst, h, if_false, Bool.false_eq_true]
      rw [occurs_cons_iff]
      rintro (⟨r, hr⟩ | hocc)
      · rcases splitFirst_append sep t with ⟨q, hq⟩
        apply h

        rw [isPrefixOf_iff_exists]
        refine ⟨r ++ q, ?_⟩
        rw [hq] at *
        calc c :: (splitFirst sep t ++ q) = (c :: splitFirst sep t) ++ q := by simp
          _ = (sep ++ r) ++ q := by rw [← hr]
          _ = sep ++ (r ++ q) := by simp
      · exact ih hocc

lemma splitFirst_eq_self {sep s : Chars} (h : ¬ Occurs sep s) : splitFirst sep s = s := by
  induction s with
  | nil => rfl
  | cons c t ih =>
    have hpre : sep.isPrefixOf (c :: t) ≠ true := by
      intro hp
      rcases (isPrefixOf_iff_exists sep (c :: t)).mp hp with ⟨r, hr⟩
      exact h ⟨[], r, by simpa using hr⟩
    have ht : ¬ Occurs sep t := fun ⟨a, b, hb⟩ => h ⟨c :: a, b, by simp [hb]⟩
    simp [splitFirst, hpre, ih ht]

lemma replaceAllF_eq_self {old : Chars} (new : Chars) (fuel : Nat) :
    ∀ s : Chars, ¬ Occurs old s → replaceAllF old new fuel s = s := by
  induction fuel with
  | zero =>
    intro s _
    cases s with
    | nil => rfl
    | cons c t => rfl
  | succ n ih =>
    intro s h
    cases s with
    | nil => rfl
    | cons c t =>
      have hpre : old.isPrefixOf (c :: t) ≠ true := by
        intro hp
        rcases (isPrefixOf_iff_exists old (c :: t)).mp hp with ⟨r, hr⟩
        exact h ⟨[], r, by simpa using hr⟩
      have ht : ¬ Occurs old t := fun ⟨a, b, hb⟩ => h ⟨c :: a, b, by simp [hb]⟩
      simp [replaceAllF, hpre, ih t ht]

lemma replaceAll_eq_self {old s : Chars} (new : Chars) (h : ¬ Occurs old s) :
    replaceAll old new s = s :=
  replaceAllF_eq_self new s.length s h

lemma dropWhile_head_false {p : Char → Bool} {s : Chars} {c : Char} {t : Chars}
    (h : s.dropWhile p = c :: t) : p c = false := by
  induction s with
  | nil => simp [List.dropWhile] at h
  | cons a as ih =>
    rw [List.dropWhile_cons] at h
    cases hpa : p a with
    | true => rw [hpa] at h; simp at h; exact ih h
    | false =>
      rw [hpa] at h; simp at h
      rw [← h.1]; exact hpa

lemma dropWhile_idem (p : Char → Bool) (s : Chars) :
    (s.dropWhile p).dropWhile p = s.dropWhile p := by
  cases h : s.dropWhile p with
  | nil => simp
  | cons c t =>
    have hc := dropWhile_head_false h
    simp [List.dropWhile_cons, hc]

lemma pyLstrip_idem (s : Chars) : pyLstrip (pyLstrip s) = pyLstrip s :=
  dropWhile_idem pyIsSpace s

lemma pyRstrip_idem (s : Chars) : pyRstrip (pyRstrip s) = pyRstrip s := by
  unfold pyRstrip
  rw [List.reverse_reverse, dropWhile_idem]

lemma pyLstrip_extend (s : Chars) : ∃ x, s = x ++ pyLstrip s :=
  ⟨s.takeWhile pyIsSpace, (List.takeWhile_append_dropWhile pyIsSpace s).symm⟩

lemma pyRstrip_extend (s : Chars) : ∃ y, s = pyRstrip s ++ y := by
  refine ⟨(s.reverse.takeWhile pyIsSpace).reverse, ?_⟩
  unfold pyRstrip
  rw [← List.reverse_append, List.takeWhile_append_dropWhile, List.reverse_reverse]

lemma pyStrip_extend (s : Chars) : ∃ x y, s = x ++ pyStrip s ++ y := by
  rcases pyLstrip_extend s with ⟨x, hx⟩
  rcases pyRstrip_extend (pyLstrip s) with ⟨y, hy⟩
  refine ⟨x, y, ?_⟩
  conv_lhs => rw [hx, hy]
  simp [pyStrip]

lemma pyStrip_idem (s : Chars) : pyStrip (pyStrip s) = pyStrip s := by
  have hl : pyLstrip (pyRstrip (pyLstrip s)) = pyRstrip (pyLstrip s) := by
    cases h : pyRstrip (pyLstrip s) with
    | nil => simp [pyLstrip]
    | cons c t =>
      rcases pyRstrip_extend (pyLstrip s) with ⟨y, hy⟩
      rw [h] at hy
      have hy' : s.dropWhile pyIsSpace = c :: (t ++ y) := by
        unfold pyLstrip at hy
        rw [hy]; simp
      have hc := dropWhile_head_false hy'
      simp [pyLstrip, List.dropWhile_cons, hc]
  show pyRstrip (pyLstrip (pyRstrip (pyLstrip s))) = pyRstrip (pyLstrip s)
  rw [hl, pyRstrip_idem]

/-! ## Title normalization (anime_backend.py:74-78, fetch_anime_image preamble) -/

def subsTag : Chars := "[SubsPlease]".toList

def sepDash : Chars := " - ".toList

def sepBr : Chars := "[".toList

/-- `fetch_anime_image` title clean-up (anime_backend.py:76-78):
`title.replace("[SubsPlease]", "").strip()`, then `.split(" - ")[0].strip()`,
then `.split("[")[0].strip()`. -/
def cleanTitle (t : Chars) : Chars :=
  pyStrip (splitFirst sepBr (pyStrip (splitFirst sepDash (pyStrip (replaceAll subsTag [] t)))))

lemma occurs_subsTag_br {u : Chars} (h : Occurs subsTag u) : Occurs sepBr u := by
  rcases h with ⟨a, b, rfl⟩
  refine ⟨a, "SubsPlease]".toList ++ b, ?_⟩
  have htag : subsTag = sepBr ++ "SubsPlease]".toList := by decide
  rw [htag]; simp

lemma cleanTitle_fixed {u : Chars} (hbr : ¬ Occurs sepBr u) (hdash : ¬ Occurs sepDash u)
    (hstrip : pyStrip u = u) : cleanTitle u = u := by
  have htag : ¬ Occurs subsTag u := fun h => hbr (occurs_subsTag_br h)
  unfold cleanTitle
  rw [replaceAll_eq_self [] htag, hstrip, splitFirst_eq_self hdash, hstrip,
      splitFirst_eq_self hbr, hstrip]

/-- C6: the canonical-series-name derivation of `fetch_anime_image`
(strip the "[SubsPlease]" tag, take the segment before " - ", take the segment
before "[", trimming whitespace at each step) is idempotent. -/
theorem cleanTitle_idempotent (t : Chars) : cleanTitle (cleanTitle t) = cleanTitle t := by
  have hbr : ¬ Occurs sepBr (cleanTitle t) := by
    unfold cleanTitle
    rcases pyStrip_extend
        (splitFirst sepBr (pyStrip (splitFirst sepDash (pyStrip (replaceAll subsTag [] t)))))
      with ⟨x, y, hxy⟩
    exact not_occurs_of_extend x y hxy (not_occurs_splitFirst _ _ (by decide))
  have hdash : ¬ Occurs sepDash (cleanTitle t) := by
    unfold cleanTitle
    have h2 : ¬ Occurs sepDash (pyStrip (splitFirst sepDash (pyStrip (replaceAll subsTag [] t)))) := by
      rcases pyStrip_extend (splitFirst sepDash (pyStrip (replaceAll subsTag [] t)))
        with ⟨x, y, hxy⟩
      exact not_occurs_of_extend x y hxy (not_occurs_splitFirst _ _ (by decide))
    rcases splitFirst_append sepBr (pyStrip (splitFirst sepDash (pyStrip (replaceAll subsTag [] t))))
      with ⟨r, hr⟩
    have h3 := not_occurs_of_extend [] r (by simpa using hr) h2
    rcases pyStrip_extend
        (splitFirst sepBr (pyStrip (splitFirst sepDash (pyStrip (replaceAll subsTag [] t)))))
      with ⟨x, y, hxy⟩
    exact not_occurs_of_extend x y hxy h3
  have hstrip : pyStrip (cleanTitle t) = cleanTitle t := by
    unfold cleanTitle; exact pyStrip_idem _
  exact cleanTitle_fixed hbr hdash hstrip

/-! ## Cache-key sanitization (anime_backend.py:70-72, get_cached_image_path) -/

/-- Model of Python `str.isalnum()` for a single character. The concrete model
uses ASCII alphanumerics; theorems that depend only on specific characters not
being alphanumeric are stated for an arbitrary predicate. -/
def pyIsAlnum (c : Char) : Bool := c.isAlphanum

/-- The filter of `get_cached_image_path`:
`c.isalnum() or c in (' ', '-', '_')`. -/
def keepChar (alnum : Char → Bool) (c : Char) : Bool :=
  alnum c || c == ' ' || c == '-' || c == '_'

/-- `safe_title = "".join(c for c in title if c.isalnum() or c in (' ', '-', '_')).rstrip()`
(anime_backend.py:71), with the alphanumeric test as a parameter. -/
def sanitizeWith (alnum : Char → Bool) (t : Chars) : Chars :=
  pyRstrip (t.filter (keepChar alnum))

def safeTitle (t : Chars) : Chars := sanitizeWith pyIsAlnum t

/-- `os.path.join(CACHE_DIR, f"{safe_title}.jpg")` (anime_backend.py:72). -/
def getCachedImagePath (title : Chars) : Chars :=
  "image_cache/".toList ++ safeTitle title ++ ".jpg".toList

lemma mem_pyRstrip {c : Char} {s : Chars} (h : c ∈ pyRstrip s) : c ∈ s := by
  rcases pyRstrip_extend s with ⟨y, hy⟩
  rw [hy]
  exact List.mem_append.mpr (Or.inl h)

lemma mem_sanitize {alnum : Char → Bool} {c : Char} {t : Chars}
    (h : c ∈ sanitizeWith alnum t) : keepChar alnum c = true :=
  (List.mem_filter.mp (mem_pyRstrip h)).2

lemma occurs_head_mem {c : Char} {p s : Chars} (h : Occurs (c :: p) s) : c ∈ s := by
  rcases h with ⟨a, b, rfl⟩
  simp

/-- C7: the sanitized cache-file key (keep only alphanumerics, space, hyphen,
underscore; trim trailing whitespace) never contains '/', '\' or "..", for any
alphanumeric test that rejects '/', '\' and '.'. -/
theorem sanitize_no_path_traversal (alnum : Char → Bool)
    (h1 : alnum '/' = false) (h2 : alnum '\\' = false) (h3 : alnum '.' = false)
    (t : Chars) :
    ¬ Occurs ['/'] (sanitizeWith alnum t) ∧
    ¬ Occurs ['\\'] (sanitizeWith alnum t) ∧
    ¬ Occurs ['.', '.'] (sanitizeWith alnum t) := by
  have hk1 : keepChar alnum '/' = false := by unfold keepChar; rw [h1]; decide
  have hk2 : keepChar alnum '\\' = false := by unfold keepChar; rw [h2]; decide
  have hk3 : keepChar alnum '.' = false := by unfold keepChar; rw [h3]; decide
  refine ⟨fun h => ?_, fun h => ?_, fun h => ?_⟩
  · have := mem_sanitize (occurs_head_mem h); rw [hk1] at this; exact Bool.false_ne_true this
  · have := mem_sanitize (occurs_head_mem h); rw [hk2] at this; exact Bool.false_ne_true this
  · have := mem_sanitize (occurs_head_mem h); rw [hk3] at this; exact Bool.false_ne_true this

/-- Witness for C7 at the ASCII alphanumeric model and a concrete title. -/
theorem sanitize_no_path_traversal_witness :
    pyIsAlnum '/' = false ∧ pyIsAlnum '\\' = false ∧ pyIsAlnum '.' = false ∧
    (¬ Occurs ['/'] (sanitizeWith pyIsAlnum "a/..\\b c".toList) ∧
     ¬ Occurs ['\\'] (sanitizeWith pyIsAlnum "a/..\\b c".toList) ∧
     ¬ Occurs ['.', '.'] (sanitizeWith pyIsAlnum "a/..\\b c".toList)) :=
  ⟨by decide, by decide, by decide,
   sanitize_no_path_traversal pyIsAlnum (by decide) (by decide) (by decide) ("a/..\\b c".toList)⟩

/-! ## Tracked list (anime_gui.py:1440-1490 on_anime_clicked,
anime_backend.py:65-68 save_tracked_anime) -/

/-- `series_name = title.replace("[SubsPlease]", "").strip().split(" - ")[0]`
(anime_gui.py:1443; note: no trailing strip and no "[" split here, unlike
`fetch_anime_image`). -/
def seriesNameGui (title : Chars) : Chars :=
  splitFirst sepDash (pyStrip (replaceAll subsTag [] title))

/-- `any(series_name in anime for anime in self.manager.tracked_anime)`
(anime_gui.py:1446). -/
def isTracked (tracked : List Chars) (s : Chars) : Bool :=
  tracked.any (fun a => hasSubstr s a)

/-- `"\n".join(tracked)` (anime_backend.py:67). -/
def joinNL : List Chars → Chars
  | [] => []
  | [x] => x
  | x :: y :: r => x ++ '\n' :: joinNL (y :: r)

/-- In-memory tracked list plus the persisted content of tracked_anime.txt
(`none` = file not yet written by us). -/
structure TrackState where
  tracked : List Chars
  savedFile : Option Chars
deriving DecidableEq

/-- anime_backend.py:65-68 `save_tracked_anime`: whole-file rewrite with the
newline join, and update of the in-memory copy. -/
def saveTrackedAnime (tracked : List Chars) : TrackState :=
  { tracked := tracked, savedFile := some (joinNL tracked) }

inductive ClickOutcome where
  | untracked
  | trackedOk
  | feedError
  | notConnected
  | addFailed
  | linkNotFound
deriving DecidableEq

/-- anime_gui.py:1440-1490 `MainWindow.on_anime_clicked`, as a state transition
on the tracked list. `feed` is the entry list of `fetch_rss_feed` (`none` for a
falsy feed), `connectOk` models the qBittorrent client being available
(`self.manager.qb_client` or a successful `ensure_qbittorrent_connection`), and
`addOk` the result of `add_torrent` on the first feed entry whose title equals
`title`. -/
def onAnimeClicked (st : TrackState) (title : Chars) (feed : Option (List (Chars × Chars)))
    (connectOk addOk : Bool) : TrackState × ClickOutcome :=
  let s := seriesNameGui title
  if isTracked st.tracked s then
    (saveTrackedAnime (st.tracked.filter (fun a => !(hasSubstr s a))), .untracked)
  else
    match feed with
    | none => (st, .feedError)
    | some entries =>
      match entries.find? (fun e => e.1 == title) with
      | none => (st, .linkNotFound)
      | some _ =>
        if !connectOk then (st, .notConnected)
        else if addOk then
          (saveTrackedAnime (st.tracked ++ [s]), .trackedOk)
        else (st, .addFailed)

lemma onAnimeClicked_track (st : TrackState) (title : Chars)
    (feed : List (Chars × Chars)) (e : Chars × Chars)
    (hnt : isTracked st.tracked (seriesNameGui title) = false)
    (hfind : feed.find? (fun x => x.1 == title) = some e) :
    onAnimeClicked st title (some feed) true true
      = (saveTrackedAnime (st.tracked ++ [seriesNameGui title]), .trackedOk) := by
  unfold onAnimeClicked
  simp [hnt, hfind]

lemma onAnimeClicked_untrack (st : TrackState) (title : Chars)
    (feed : Option (List (Chars × Chars))) (c a : Bool)
    (ht : isTracked st.tracked (seriesNameGui title) = true) :
    onAnimeClicked st title feed c a
      = (saveTrackedAnime
          (st.tracked.filter (fun x => !(hasSubstr (seriesNameGui title) x))), .untracked) := by
  unfold onAnimeClicked
  simp [ht]

lemma hasSubstr_self (s : Chars) : hasSubstr s s = true :=
  (hasSubstr_iff s s).mpr ⟨[], [], by simp⟩

/-- Concrete raw feed-entry title used in counterexamples/witnesses. -/
def c2Title : Chars := "[SubsPlease] Show A - 01 (1080p) [ABCD1234].mkv".toList

/-- C2 counterexample: for the raw feed title
"[SubsPlease] Show A - 01 (1080p) [ABCD1234].mkv" with an initially empty
tracked list, a successful tracking click does NOT append the raw title: it
appends the derived series name "Show A". -/
theorem track_appends_raw_title_false :
    ¬ ((onAnimeClicked ⟨[], none⟩ c2Title (some [(c2Title, "lnk".toList)]) true true).1.tracked
        = [c2Title]) := by decide

/-- C2 (amended): when the series is not yet tracked, the feed contains an
entry for the clicked title, the client is connected and the torrent submission
succeeds, `on_anime_clicked` appends the derived series name
(`title.replace("[SubsPlease]", "").strip().split(" - ")[0]`) to the tracked
list and persists the newline-join of the new list. -/
theorem track_appends_series_name (st : TrackState) (title : Chars)
    (feed : List (Chars × Chars)) (e : Chars × Chars)
    (hnt : isTracked st.tracked (seriesNameGui title) = false)
    (hfind : feed.find? (fun x => x.1 == title) = some e) :
    (onAnimeClicked st title (some feed) true true).1.tracked
        = st.tracked ++ [seriesNameGui title] ∧
    (onAnimeClicked st title (some feed) true true).1.savedFile
        = some (joinNL (st.tracked ++ [seriesNameGui title])) ∧
    (onAnimeClicked st title (some feed) true true).2 = .trackedOk := by
  rw [onAnimeClicked_track st title feed e hnt hfind]
  exact ⟨rfl, rfl, rfl⟩

/-- Witness for C2 (amended) at a concrete title and empty initial list. -/
theorem track_appends_series_name_witness :
    isTracked ([] : List Chars) (seriesNameGui c2Title) = false ∧
    ([(c2Title, "lnk".toList)].find? (fun x => x.1 == c2Title)
        = some (c2Title, "lnk".toList)) ∧
    ((onAnimeClicked ⟨[], none⟩ c2Title (some [(c2Title, "lnk".toList)]) true true).1.tracked
        = [] ++ [seriesNameGui c2Title] ∧
     (onAnimeClicked ⟨[], none⟩ c2Title (some [(c2Title, "lnk".toList)]) true true).1.savedFile
        = some (joinNL ([] ++ [seriesNameGui c2Title])) ∧
     (onAnimeClicked ⟨[], none⟩ c2Title (some [(c2Title, "lnk".toList)]) true true).2
        = .trackedOk) :=
  ⟨by decide, by decide,
   track_appends_series_name ⟨[], none⟩ c2Title [(c2Title, "lnk".toList)]
     (c2Title, "lnk".toList) (by decide) (by decide)⟩

lemma filter_append_self (L : List Chars) (s : Chars)
    (h : ∀ x ∈ L, hasSubstr s x = false) :
    (L ++ [s]).filter (fun x => !(hasSubstr s x)) = L := by
  rw [List.filter_append]
  have h1 : L.filter (fun x => !(hasSubstr s x)) = L :=
    List.filter_eq_self.mpr (fun a ha => by simp [h a ha])
  simp [h1, hasSubstr_self]

lemma isTracked_false_mem {L : List Chars} {s : Chars}
    (hnt : isTracked L s = false) : ∀ x ∈ L, hasSubstr s x = false := by
  intro x hx
  cases hval : hasSubstr s x with
  | false => rfl
  | true =>
    have : isTracked L s = true := by
      unfold isTracked
      rw [List.any_eq_true]
      exact ⟨x, hx, hval⟩
    rw [this] at hnt
    exact absurd hnt (by simp)

/-- C3: starting from a tracked list in which the clicked title's series is not
yet tracked, a successful tracking click followed by a second click on the same
raw title (which takes the untrack branch, removing entries by substring match)
restores the tracked list to exactly its original contents (hence also equal as
a set). -/
theorem track_untrack_roundtrip (st : TrackState) (title : Chars)
    (feed : List (Chars × Chars)) (e : Chars × Chars)
    (feed2 : Option (List (Chars × Chars))) (c a : Bool)
    (hnt : isTracked st.tracked (seriesNameGui title) = false)
    (hfind : feed.find? (fun x => x.1 == title) = some e) :
    (onAnimeClicked (onAnimeClicked st title (some feed) true true).1
        title feed2 c a).1.tracked = st.tracked := by
  rw [onAnimeClicked_track st title feed e hnt hfind]
  have ht : isTracked (saveTrackedAnime (st.tracked ++ [seriesNameGui title])).tracked
      (seriesNameGui title) = true := by
    simp [saveTrackedAnime, isTracked, hasSubstr_self]
  rw [onAnimeClicked_untrack _ title feed2 c a ht]
  simp only [saveTrackedAnime]
  exact filter_append_self st.tracked (seriesNameGui title) (isTracked_false_mem hnt)

/-- Witness for C3 at a concrete tracked list and title. -/
theorem track_untrack_roundtrip_witness :
    isTracked ["Other Show".toList] (seriesNameGui c2Title) = false ∧
    ([(c2Title, "lnk".toList)].find? (fun x => x.1 == c2Title)
        = some (c2Title, "lnk".toList)) ∧
    (onAnimeClicked
        (onAnimeClicked ⟨["Other Show".toList], none⟩ c2Title
          (some [(c2Title, "lnk".toList)]) true true).1
        c2Title none false false).1.tracked = ["Other Show".toList] :=
  ⟨by decide, by decide,
   track_untrack_roundtrip ⟨["Other Show".toList], none⟩ c2Title
     [(c2Title, "lnk".toList)] (c2Title, "lnk".toList) none false false
     (by decide) (by decide)⟩

/-! ## Schedule countdown (anime_gui.py:638-693 update_countdown) -/

/-- Naive UTC datetime as used by `datetime.utcnow()` /
`datetime.replace`. -/
structure PyDateTime where
  year : Nat
  month : Nat
  day : Nat
  hour : Nat
  minute : Nat
deriving DecidableEq

def isLeap (y : Nat) : Bool := (y % 4 == 0 && y % 100 != 0) || y % 400 == 0

/-- Number of days of month `m` in year `y` (the bound `datetime.replace`
checks the new day against). -/
def daysInMonth (y m : Nat) : Nat :=
  if m = 2 then (if isLeap y then 29 else 28)
  else if m = 4 ∨ m = 6 ∨ m = 9 ∨ m = 11 then 30 else 31

/-- Day count of the proleptic Gregorian calendar (days since 0000-03-01,
civil-calendar algorithm, for years ≥ 1). -/
def daysFromCivil (y m d : Nat) : Nat :=
  let y' := if m ≤ 2 then y - 1 else y
  let era := y' / 400
  let yoe := y' % 400
  let mp := if 2 < m then m - 3 else m + 9
  let doy := (153 * mp + 2) / 5 + (d - 1)
  let doe := yoe * 365 + yoe / 4 - yoe / 100 + doy
  era * 146097 + doe

/-- Python `datetime.weekday()`: Monday = 0 .. Sunday = 6. -/
def pyWeekday (dt : PyDateTime) : Nat :=
  (daysFromCivil dt.year dt.month dt.day + 2) % 7

/-- Total minutes of a (valid) datetime on the absolute timeline; datetime
subtraction and comparison are computed through this. -/
def toAbsMinutes (dt : PyDateTime) : Nat :=
  daysFromCivil dt.year dt.month dt.day * 1440 + dt.hour * 60 + dt.minute

def digitsVal (s : Chars) : Nat :=
  s.foldl (fun n c => n * 10 + (c.toNat - '0'.toNat)) 0

def splitOnceColon : Chars → Option (Chars × Chars)
  | [] => none
  | c :: t =>
    if c = ':' then some ([], t)
    else
      match splitOnceColon t with
      | some (a, b) => some (c :: a, b)
      | none => none

/-- `datetime.strptime(time_str, "%H:%M")` (anime_gui.py:652): the
hour/minute on a match, `none` when the format does not match (a Python
exception). -/
def parseHM (s : Chars) : Option (Nat × Nat) :=
  match splitOnceColon s with
  | none => none
  | some (a, b) =>
    if a ≠ [] ∧ a.length ≤ 2 ∧ a.all Char.isDigit ∧
       b ≠ [] ∧ b.length ≤ 2 ∧ b.all Char.isDigit ∧
       digitsVal a < 24 ∧ digitsVal b < 60 then
      some (digitsVal a, digitsVal b)
    else none

def weekdayNames : List Chars :=
  ["monday".toList, "tuesday".toList, "wednesday".toList, "thursday".toList,
   "friday".toList, "saturday".toList, "sunday".toList]

def pyLower (s : Chars) : Chars := s.map Char.toLower

/-- `["monday", ..., "sunday"].index(day.lower())` (anime_gui.py:655): index of
the first equal element, `none` for Python's ValueError. -/
def weekdayIndex (day : Chars) : Option Nat :=
  weekdayNames.findIdx? (fun w => w == pyLower day)

/-- `days_until = day_index - current_day_index; if days_until <= 0:
days_until += 7` (anime_gui.py:661-663). -/
def daysUntil (dayIdx currentIdx : Nat) : Int :=
  let d : Int := (dayIdx : Int) - (currentIdx : Int)
  if d ≤ 0 then d + 7 else d

/-- One `show` iteration of the inner loop of `update_countdown`
(anime_gui.py:649-673). The accumulator is `next_time` as absolute minutes;
`Except.error ()` models a Python exception escaping to the outer `except`
branch (bad time format, unknown weekday name, or `datetime.replace` receiving
a day out of range for the month). -/
def processShow (series : Chars) (now : PyDateTime) (day : Chars)
    (acc : Option Nat) (sh : Chars × Chars) : Except Unit (Option Nat) :=
  if hasSubstr series sh.2 then
    match parseHM sh.1 with
    | none => .error ()
    | some (h, mi) =>
      match weekdayIndex day with
      | none => .error ()
      | some dIdx =>
        let du := daysUntil dIdx (pyWeekday now)
        if 1 ≤ (now.day : Int) + du ∧
           (now.day : Int) + du ≤ (daysInMonth now.year now.month : Int) then
          let cand := toAbsMinutes
            ⟨now.year, now.month, ((now.day : Int) + du).toNat, h, mi⟩
          match acc with
          | none => .ok (some cand)
          | some best => .ok (some (if cand < best then cand else best))
        else .error ()
  else .ok acc

/-- The inner `for show in shows` loop. -/
def processShows (series : Chars) (now : PyDateTime) (day : Chars) :
    Option Nat → List (Chars × Chars) → Except Unit (Option Nat)
  | acc, [] => .ok acc
  | acc, sh :: rest =>
    match processShow series now day acc sh with
    | .error e => .error e
    | .ok acc' => processShows series now day acc' rest

/-- The outer `for day, shows in schedule_data["schedule"].items()` loop. -/
def findNextTime (series : Chars) (now : PyDateTime) :
    Option Nat → List (Chars × List (Chars × Chars)) → Except Unit (Option Nat)
  | acc, [] => .ok acc
  | acc, (day, shows) :: rest =>
    match processShows series now day acc shows with
    | .error e => .error e
    | .ok acc' => findNextTime series now acc' rest

/-- The three outcomes of `update_countdown`: the "Schedule unavailable" label,
the "No scheduled episodes found" label, or a countdown with the displayed
days / hours / minutes (`time_until.days`,
`int(total_seconds % 86400 // 3600)`, `int(total_seconds % 3600 // 60)`). -/
inductive CountdownResult where
  | unavailable
  | noScheduled
  | next (days hours minutes : Int)
deriving DecidableEq

/-- anime_gui.py:638-693 `TrackedAnimeCard.update_countdown`. `scheduleData` is
the `schedule` mapping of `fetch_schedule` in its iteration order (`none` for a
falsy fetch result); `series` is `self.series_name`; `now` is
`datetime.utcnow()`. -/
def updateCountdown (scheduleData : Option (List (Chars × List (Chars × Chars))))
    (series : Chars) (now : PyDateTime) : CountdownResult :=
  match scheduleData with
  | none => .unavailable
  | some schedule =>
    match findNextTime series now none schedule with
    | .error _ => .unavailable
    | .ok none => .noScheduled
    | .ok (some nextT) =>
      let d : Int := (nextT : Int) - (toAbsMinutes now : Int)
      .next (d.fdiv 1440) ((d.fmod 1440).fdiv 60) (d.fmod 60)

/-- The schedule `{monday: [{time: "10:00", title: "X"}]}` of the spec's
ScheduleOracle example. -/
def c1Schedule : List (Chars × List (Chars × Chars)) :=
  [("monday".toList, [("10:00".toList, "X".toList)])]

lemma daysFromCivil_add (y m d k : Nat) (hd : 1 ≤ d) :
    daysFromCivil y m (d + k) = daysFromCivil y m d + k := by
  simp only [daysFromCivil]
  by_cases hm : m ≤ 2
  · have hm' : ¬ (2 < m) := by omega
    rw [if_pos hm, if_neg hm']
    omega
  · have hm' : 2 < m := by omega
    rw [if_neg hm, if_pos hm']
    omega

/-- C1 (amended): for the schedule `{monday: [{time: "10:00", title: "X"}]}`
and a current UTC instant of Monday 09:00 (with at least 7 more days in the
month), the countdown for series "X" is 7 days 1 hour 0 minutes, NOT 1 hour:
`days_until <= 0` is bumped to +7 unconditionally, even same-day before the
broadcast time. -/
theorem countdown_monday_nine (now : PyDateTime)
    (hwd : pyWeekday now = 0) (hh : now.hour = 9) (hm : now.minute = 0)
    (hd1 : 1 ≤ now.day) (hday : now.day + 7 ≤ daysInMonth now.year now.month) :
    updateCountdown (some c1Schedule) "X".toList now = .next 7 1 0 := by
  have h1 : hasSubstr "X".toList "X".toList = true := by decide
  have h2 : parseHM "10:00".toList = some (10, 0) := by decide
  have h3 : weekdayIndex "monday".toList = some 0 := by decide
  have hdu : daysUntil 0 (pyWeekday now) = 7 := by rw [hwd]; decide
  have hcond : 1 ≤ (now.day : Int) + daysUntil 0 (pyWeekday now) ∧
      (now.day : Int) + daysUntil 0 (pyWeekday now) ≤ (daysInMonth now.year now.month : Int) := by
    rw [hdu]; omega
  have hstep : findNextTime "X".toList now none c1Schedule
      = .ok (some (toAbsMinutes
          ⟨now.year, now.month, ((now.day : Int) + daysUntil 0 (pyWeekday now)).toNat, 10, 0⟩)) := by
    simp only [c1Schedule, findNextTime, processShows, processShow, h1, h2, h3, if_true,
      hcond, if_pos, and_self]
  have hcand : ((now.day : Int) + daysUntil 0 (pyWeekday now)).toNat = now.day + 7 := by
    rw [hdu]; omega
  have habs : ((toAbsMinutes ⟨now.year, now.month, now.day + 7, 10, 0⟩ : Nat) : Int)
      - ((toAbsMinutes now : Nat) : Int) = 10140 := by
    simp only [toAbsMinutes, daysFromCivil_add now.year now.month now.day 7 hd1, hh, hm]
    push_cast
    ring
  simp only [updateCountdown, hstep, hcand, habs]
  decide

/-- C1 counterexample: at the concrete Monday 2025-01-06 09:00 UTC, the
countdown for "X" under `{monday: [{time: "10:00", title: "X"}]}` is not
0 days 1 hour 0 minutes (it is 7 days 1 hour). -/
theorem countdown_monday_nine_not_one_hour :
    ¬ (updateCountdown (some c1Schedule) "X".toList ⟨2025, 1, 6, 9, 0⟩
        = .next 0 1 0) := by decide

/-- Witness for C1 (amended) at Monday 2025-01-06 09:00 UTC. -/
theorem countdown_monday_nine_witness :
    pyWeekday ⟨2025, 1, 6, 9, 0⟩ = 0 ∧ (1 : Nat) ≤ 6 ∧ 6 + 7 ≤ daysInMonth 2025 1 ∧
    updateCountdown (some c1Schedule) "X".toList ⟨2025, 1, 6, 9, 0⟩ = .next 7 1 0 :=
  ⟨by decide, by decide, by decide,
   countdown_monday_nine ⟨2025, 1, 6, 9, 0⟩ (by decide) rfl rfl (by decide) (by decide)⟩

/-- C9: whenever a (here single-entry) schedule has an entry matching the
series, with a well-formed time and weekday, and the current day-of-month plus
the computed days-until exceeds the number of days in the current month,
`datetime.replace` raises and `update_countdown` reports "Schedule
unavailable". -/
theorem countdown_overflow_unavailable (dayName timeStr title series : Chars)
    (now : PyDateTime) (h mi dIdx : Nat)
    (hsub : hasSubstr series title = true)
    (hparse : parseHM timeStr = some (h, mi))
    (hidx : weekdayIndex dayName = some dIdx)
    (hover : (daysInMonth now.year now.month : Int)
        < (now.day : Int) + daysUntil dIdx (pyWeekday now)) :
    updateCountdown (some [(dayName, [(timeStr, title)])]) series now = .unavailable := by
  have hcond : ¬ (1 ≤ (now.day : Int) + daysUntil dIdx (pyWeekday now) ∧
      (now.day : Int) + daysUntil dIdx (pyWeekday now)
        ≤ (daysInMonth now.year now.month : Int)) := by
    rintro ⟨-, h2⟩
    omega
  simp only [updateCountdown, findNextTime, processShows, processShow, hsub, hparse, hidx,
    if_true, hcond, if_false, iff_false]

/-- Witness for C9: Tuesday 2025-01-28 09:00 UTC against a Monday 10:00 entry
(days_until = 6, 28 + 6 = 34 > 31 days of January). -/
theorem countdown_overflow_unavailable_witness :
    hasSubstr "X".toList "X".toList = true ∧
    parseHM "10:00".toList = some (10, 0) ∧
    weekdayIndex "monday".toList = some 0 ∧
    ((daysInMonth 2025 1 : Int)
        < ((28 : Nat) : Int) + daysUntil 0 (pyWeekday ⟨2025, 1, 28, 9, 0⟩)) ∧
    updateCountdown (some [("monday".toList, [("10:00".toList, "X".toList)])])
        "X".toList ⟨2025, 1, 28, 9, 0⟩ = .unavailable :=
  ⟨by decide, by decide, by decide, by decide,
   countdown_overflow_unavailable "monday".toList "10:00".toList "X".toList "X".toList
     ⟨2025, 1, 28, 9, 0⟩ 10 0 0 (by decide) (by decide) (by decide) (by decide)⟩

/-! ## Poster image fetch (anime_backend.py:74-114 fetch_anime_image) -/

/-- Interaction of one retry-loop attempt with the external API:
`raisesEarly` = exception in the query phase (`requests.get`,
`raise_for_status`, JSON decoding); `noResult` = response whose `data` is
missing/empty or whose large image URL is falsy; `dlRaises` = exception while
downloading the image bytes; `success` = image found and downloaded. -/
inductive ApiOutcome where
  | raisesEarly
  | noResult
  | dlRaises
  | success
deriving DecidableEq

/-- External environment of `fetch_anime_image`: `cached` is
`os.path.exists`, `api` gives the outcome of the attempt with a given index. -/
structure FetchEnv where
  cached : Chars → Bool
  api : Nat → ApiOutcome

/-- Result of `fetch_anime_image` plus its observable effects: number of
`jikan_limiter.wait()` calls, search queries issued, image downloads issued,
and cache-file writes. -/
structure FetchResult where
  path : Chars
  waits : Nat
  apiCalls : Nat
  downloads : Nat
  cacheWrites : Nat
deriving DecidableEq

def PLACEHOLDER_IMAGE : Chars := "placeholder.jpg".toList

def MAX_RETRIES : Nat := 3

/-- The `for attempt in range(MAX_RETRIES)` loop of `fetch_anime_image`
(anime_backend.py:86-114), with `remaining` attempts left. Each iteration
calls the rate limiter and issues one API query; `except` catches every
exception and only advances the loop (the inter-attempt `time.sleep(1)` has no
observable effect modelled here); exhaustion returns the placeholder. -/
def fetchLoop (env : FetchEnv) (cachePath : Chars) :
    Nat → Nat → Nat → Nat → Nat → Nat → FetchResult
  | 0, _, waits, apiCalls, downloads, writes =>
    ⟨PLACEHOLDER_IMAGE, waits, apiCalls, downloads, writes⟩
  | remaining + 1, attempt, waits, apiCalls, downloads, writes =>
    match env.api attempt with
    | .success => ⟨cachePath, waits + 1, apiCalls + 1, downloads + 1, writes + 1⟩
    | .dlRaises =>
      fetchLoop env cachePath remaining (attempt + 1) (waits + 1) (apiCalls + 1)
        (downloads + 1) writes
    | .raisesEarly =>
      fetchLoop env cachePath remaining (attempt + 1) (waits + 1) (apiCalls + 1)
        downloads writes
    | .noResult =>
      fetchLoop env cachePath remaining (attempt + 1) (waits + 1) (apiCalls + 1)
        downloads writes

/-- anime_backend.py:74-114 `fetch_anime_image`: clean the title, return the
cached path on a cache hit, otherwise run the retry loop. -/
def fetchAnimeImage (env : FetchEnv) (title : Chars) : FetchResult :=
  let cachePath := getCachedImagePath (cleanTitle title)
  if env.cached cachePath then ⟨cachePath, 0, 0, 0, 0⟩
  else fetchLoop env cachePath MAX_RETRIES 0 0 0 0 0

lemma fetchLoop_raisesEarly {env : FetchEnv} {cachePath : Chars}
    {remaining attempt w a d wr : Nat} (h : env.api attempt = .raisesEarly) :
    fetchLoop env cachePath (remaining + 1) attempt w a d wr
      = fetchLoop env cachePath remaining (attempt + 1) (w + 1) (a + 1) d wr := by
  simp only [fetchLoop, h]

/-- C4: with an API that fails on every call and no cached file,
`fetch_anime_image` makes exactly 3 attempts (3 rate-limiter waits, 3 API
calls), downloads nothing, writes nothing, and returns the fixed placeholder
path; the embedding is a total function — every exception is swallowed by the
`except` branch, none reaches the caller. -/
theorem fetch_all_errors_three_attempts (env : FetchEnv) (title : Chars)
    (hapi : ∀ n, env.api n = .raisesEarly)
    (hmiss : env.cached (getCachedImagePath (cleanTitle title)) = false) :
    fetchAnimeImage env title = ⟨PLACEHOLDER_IMAGE, 3, 3, 0, 0⟩ := by
  simp only [fetchAnimeImage]
  rw [hmiss]
  show fetchLoop env _ 3 0 0 0 0 0 = _
  rw [show (3 : Nat) = 2 + 1 from rfl, fetchLoop_raisesEarly (hapi 0),
    show (2 : Nat) = 1 + 1 from rfl, fetchLoop_raisesEarly (hapi (0 + 1)),
    show (1 : Nat) = 0 + 1 from rfl, fetchLoop_raisesEarly (hapi (0 + 1 + 1))]
  rfl

/-- Witness for C4 with a concrete always-failing environment. -/
theorem fetch_all_errors_three_attempts_witness :
    (∀ n, (FetchEnv.mk (fun _ => false) (fun _ => .raisesEarly)).api n = .raisesEarly) ∧
    (FetchEnv.mk (fun _ => false) (fun _ => .raisesEarly)).cached
        (getCachedImagePath (cleanTitle "Show X".toList)) = false ∧
    fetchAnimeImage (FetchEnv.mk (fun _ => false) (fun _ => .raisesEarly)) "Show X".toList
        = ⟨PLACEHOLDER_IMAGE, 3, 3, 0, 0⟩ :=
  ⟨fun _ => rfl, rfl,
   fetch_all_errors_three_attempts (FetchEnv.mk (fun _ => false) (fun _ => .raisesEarly))
     "Show X".toList (fun _ => rfl) rfl⟩

/-- C5: when a file already exists at the sanitized cache path of the cleaned
title, `fetch_anime_image` returns that path immediately with zero rate-limiter
waits, zero API queries, zero downloads and zero writes. -/
theorem fetch_cache_hit_no_network (env : FetchEnv) (title : Chars)
    (hhit : env.cached (getCachedImagePath (cleanTitle title)) = true) :
    fetchAnimeImage env title = ⟨getCachedImagePath (cleanTitle title), 0, 0, 0, 0⟩ := by
  simp only [fetchAnimeImage]
  rw [hhit]
  simp

/-- Witness for C5 with a concrete environment whose cache contains the
entry. -/
theorem fetch_cache_hit_no_network_witness :
    (FetchEnv.mk (fun _ => true) (fun _ => .raisesEarly)).cached
        (getCachedImagePath (cleanTitle "Show A".toList)) = true ∧
    fetchAnimeImage (FetchEnv.mk (fun _ => true) (fun _ => .raisesEarly)) "Show A".toList
        = ⟨getCachedImagePath (cleanTitle "Show A".toList), 0, 0, 0, 0⟩ :=
  ⟨rfl,
   fetch_cache_hit_no_network (FetchEnv.mk (fun _ => true) (fun _ => .raisesEarly))
     "Show A".toList rfl⟩

/-! ## Rate limiter (anime_backend.py:21-33 RateLimiter.wait) -/

/-- One observed execution of `RateLimiter.wait()`, times in seconds as
rationals: `tCurrent` is the value read by the first `time.time()` call,
`tExit` the value read by the second one (`self.last_call = time.time()`),
which is also when the call returns. -/
structure WaitObs where
  tCurrent : ℚ
  tExit : ℚ

/-- Semantics of one `wait()` body with `last` the stored `last_call`
(anime_backend.py:27-33): when the time since the last call is below the
interval `1 / calls_per_second`, the thread sleeps at least the remainder
before the second `time.time()` reading; otherwise time merely does not run
backwards between the two readings. -/
def WaitStep (cps last : ℚ) (o : WaitObs) : Prop :=
  if o.tCurrent - last < 1 / cps
    then o.tCurrent + (1 / cps - (o.tCurrent - last)) ≤ o.tExit
    else o.tCurrent ≤ o.tExit

/-- A sequence of `wait()` calls on a single thread: each call's first
`time.time()` reading is no earlier than the previous call's return, and each
call runs `WaitStep` against the `last_call` value left by its predecessor
(which is that call's `tExit`). -/
def SeqRun (cps : ℚ) : ℚ → ℚ → List WaitObs → Prop
  | _, _, [] => True
  | last, prevExit, o :: rest =>
    prevExit ≤ o.tCurrent ∧ WaitStep cps last o ∧ SeqRun cps o.tExit o.tExit rest

/-- Return time of the last call of the sequence (`d` for an empty one). -/
def lastExitTime (d : ℚ) : List WaitObs → ℚ
  | [] => d
  | o :: rest => lastExitTime o.tExit rest

lemma waitStep_last_add {cps last : ℚ} {o : WaitObs} (h : WaitStep cps last o) :
    last + 1 / cps ≤ o.tExit := by
  unfold WaitStep at h
  split_ifs at h with hc
  · linarith
  · push_neg at hc
    linarith

lemma waitStep_current_le_exit {cps last : ℚ} {o : WaitObs} (h : WaitStep cps last o) :
    o.tCurrent ≤ o.tExit := by
  unfold WaitStep at h
  split_ifs at h with hc
  · linarith
  · exact h

lemma seqRun_lastExit (cps : ℚ) :
    ∀ (obs : List WaitObs) (last prevExit : ℚ), SeqRun cps last prevExit obs →
      last + obs.length * (1 / cps) ≤ lastExitTime last obs := by
  intro obs
  induction obs with
  | nil => intro last prevExit _; simp [lastExitTime]
  | cons o rest ih =>
    intro last prevExit h
    obtain ⟨h1, h2, h3⟩ := h
    have hstep := waitStep_last_add h2
    have hrest := ih o.tExit o.tExit h3
    simp only [lastExitTime, List.length_cons]
    have hring : (((rest.length : ℚ) + 1)) * (1 / cps)
        = (rest.length : ℚ) * (1 / cps) + 1 / cps := by ring
    push_cast
    rw [hring]
    linarith

/-- C8: `RateLimiter.wait()` called N = rest.length + 1 times sequentially on
one thread takes at least (N-1)/callsPerSecond seconds in total: the return
time of the last call is at least the first call's entry reading plus
(N-1) times the interval; each call after the first returns no earlier than
1/callsPerSecond after the previous call's recorded `last_call`. -/
theorem rateLimiter_min_total_time (cps last0 : ℚ) (o : WaitObs) (rest : List WaitObs)
    (hrun : SeqRun cps last0 o.tCurrent (o :: rest)) :
    o.tCurrent + rest.length * (1 / cps) ≤ lastExitTime last0 (o :: rest) := by
  obtain ⟨h1, h2, h3⟩ := hrun
  have hstep := waitStep_current_le_exit h2
  have hrest := seqRun_lastExit cps rest o.tExit o.tExit h3
  simp only [lastExitTime]
  linarith

/-- Witness for C8: two calls at 1 call/second, entering at t=100; the second
call sleeps to t=102, one interval after the first call's recorded time. -/
theorem rateLimiter_min_total_time_witness :
    SeqRun 1 0 (100 : ℚ) [⟨100, 101⟩, ⟨101, 102⟩] ∧
    (100 : ℚ) + ([(⟨101, 102⟩ : WaitObs)].length : ℚ) * (1 / 1)
      ≤ lastExitTime 0 [⟨100, 101⟩, ⟨101, 102⟩] :=
  ⟨by norm_num [SeqRun, WaitStep],
   rateLimiter_min_total_time 1 0 ⟨100, 101⟩ [⟨101, 102⟩]
     (by norm_num [SeqRun, WaitStep])⟩

/-! ## Torrent submission (anime_backend.py:146-160 add_torrent) -/

/-- Python truthiness of the optional `category` string argument. -/
def pyTruthyStr : Option Chars → Bool
  | none => false
  | some s => !s.isEmpty

/-- A `qb_client.torrents_add(urls=..., category=...)` call. -/
structure TorrentsAddCall where
  urls : List Chars
  category : Option Chars
deriving DecidableEq

/-- Result of `add_torrent`: the returned boolean and the `torrents_add` call
issued, if any was. -/
structure AddTorrentResult where
  success : Bool
  submitted : Option TorrentsAddCall
deriving DecidableEq

/-- anime_backend.py:146-160 `add_torrent`. `connected` models `self.qb_client`
being set, `apiRaises` models `torrents_add` raising. The submitted category is
`"Anime" if category else None`. -/
def addTorrent (connected apiRaises : Bool) (link : Chars) (category : Option Chars) :
    AddTorrentResult :=
  if !connected then ⟨false, none⟩
  else
    let call : TorrentsAddCall :=
      ⟨[link], if pyTruthyStr category then some "Anime".toList else none⟩
    if apiRaises then ⟨false, some call⟩ else ⟨true, some call⟩

/-- C10: whenever `add_torrent` issues a `torrents_add` call, the call carries
the single link as URL and category `"Anime"` for any truthy category argument
and `None` for a falsy one — the caller-supplied category string itself is
never forwarded. -/
theorem addTorrent_fixed_category (connected apiRaises : Bool) (link : Chars)
    (category : Option Chars) (call : TorrentsAddCall)
    (hsub : (addTorrent connected apiRaises link category).submitted = some call) :
    call.urls = [link] ∧
    call.category = (if pyTruthyStr category then some "Anime".toList else none) := by
  unfold addTorrent at hsub
  cases connected with
  | false => simp at hsub
  | true =>
    cases apiRaises with
    | true =>
      simp at hsub
      rw [← hsub]
      exact ⟨rfl, rfl⟩
    | false =>
      simp at hsub
      rw [← hsub]
      exact ⟨rfl, rfl⟩

/-- Witness for C10: a caller passing category "Movies" still submits under
"Anime". -/
theorem addTorrent_fixed_category_witness :
    (addTorrent true false "lnk".toList (some "Movies".toList)).submitted
        = some ⟨["lnk".toList], some "Anime".toList⟩ ∧
    ((⟨["lnk".toList], some "Anime".toList⟩ : TorrentsAddCall).urls = ["lnk".toList] ∧
     (⟨["lnk".toList], some "Anime".toList⟩ : TorrentsAddCall).category
        = (if pyTruthyStr (some "Movies".toList) then some "Anime".toList else none)) :=
  ⟨by decide,
   addTorrent_fixed_category true false "lnk".toList (some "Movies".toList)
     ⟨["lnk".toList], some "Anime".toList⟩ (by decide)⟩
